import Mathlib

/-!
Shallow embedding of the pesdb_snapshot crawl engine (src/index.js) and
verification of the frozen claims about it.

The embedding models:
* the politeness/retry fetch layer (`fetchHtml`),
* per-page extraction (`parsePage`) over an abstract document tree,
* pagination discovery (`detectLastPage`),
* the checkpointed crawl orchestrator (`crawlAll`) with its dedupe pass.

External collaborators (HTTP transport, cheerio document queries, the URL
resolver, the blob store) are modelled as explicit data: a fetch oracle
gives the outcome of each network call in order, documents are abstract
tables of rows of cells, and the checkpoint file is a natural number
threaded through the run.
-/

namespace PesDB

/-! ### Character and string helpers (kernel-friendly models of JS string ops) -/

/-- Whitespace test used by the model of JS String.prototype.trim. -/
def isWsChar (c : Char) : Bool :=
  c = ' ' || c = '\t' || c = '\n' || c = '\r'

/-- Models JS String.prototype.trim on a character list. -/
def trimChars (cs : List Char) : List Char :=
  ((cs.dropWhile isWsChar).reverse.dropWhile isWsChar).reverse

/-- Models JS String.prototype.trim. -/
def trimS (s : String) : String :=
  String.mk (trimChars s.toList)

/-- Does the character list start with the given pattern? -/
def startsWithSeg : List Char → List Char → Bool
  | [], _ => true
  | _ :: _, [] => false
  | p :: ps, c :: cs => p = c && startsWithSeg ps cs

/-- Does the character list contain the pattern as a contiguous segment?
Models JS String.prototype.includes. -/
def hasSeg (pat : List Char) : List Char → Bool
  | [] => startsWithSeg pat []
  | c :: cs => startsWithSeg pat (c :: cs) || hasSeg pat cs

/-- Lowercases a character list; models JS String.prototype.toLowerCase
for the ASCII text compared in the source. -/
def lowerChars (cs : List Char) : List Char :=
  cs.map Char.toLower

/-- Value of a nonempty all-digit character list, none otherwise. -/
def digitsVal? (cs : List Char) : Option Nat :=
  if cs = [] then none
  else if cs.all Char.isDigit then
    some (cs.foldl (fun a c => a * 10 + (c.toNat - 48)) 0)
  else none

/-- Models JS Number(s) restricted to the integer-valued cell texts of this
source: the empty (all-whitespace) string converts to 0, a decimal integer
numeral to its value, anything else to NaN (returned as none). -/
def jsNum (s : String) : Option Int :=
  let t := trimChars s.toList
  if t = [] then some (0 : Int)
  else
    match t with
    | '-' :: rest => (digitsVal? rest).map (fun n => -(n : Int))
    | _ => (digitsVal? t).map (fun n => (n : Int))

/-- Models the `Number($td.eq(i).text().trim()) || null` idiom of parsePage:
NaN and 0 are falsy in JS, so both become null. -/
def numOrNull (s : String) : Option Int :=
  match jsNum s with
  | none => none
  | some n => if n = 0 then none else some n

/-- Models `Number(t)` plus the `Number.isInteger(n)` guard of
detectLastPage: some value exactly when the trimmed label converts to an
integer (the empty label converts to 0, which is an integer in JS). -/
def jsIntOfLabel (s : String) : Option Int := jsNum s

/-! ### Configuration constants (src/index.js lines 6-19) -/

def BASE : String := "https://pesdb.net/efootball"
def REQUEST_DELAY_MS_MIN : Nat := 2500
def REQUEST_DELAY_MS_MAX : Nat := 4000
def MAX_RETRIES : Nat := 5
def MAX_PAGES_DEBUG : Nat := 0

/-- jitter() = REQUEST_DELAY_MS_MIN + Math.floor(Math.random() * (MAX-MIN+1)).
The random draw is modelled by an externally supplied natural number,
reduced modulo the window size exactly as floor(random()*(MAX-MIN+1))
ranges over 0..MAX-MIN. -/
def jitter (rand : Nat) : Nat :=
  REQUEST_DELAY_MS_MIN + rand % (REQUEST_DELAY_MS_MAX - REQUEST_DELAY_MS_MIN + 1)

/-! ### Fetcher (src/index.js lines 28-56) -/

/-- res.ok of the fetch API: status in 200..299. -/
def okStatus (s : Nat) : Bool := 200 ≤ s && s ≤ 299

/-- The retryable statuses of fetchHtml: 429 or any 5xx. -/
def retryable (s : Nat) : Bool := s == 429 || (500 ≤ s && s < 600)

/-- Outcome of fetchHtml: the body text on success or the thrown HTTP
status, together with the number of fetch calls made and the list of
backoff sleeps performed (in ms, in order). -/
inductive FetchOut where
  | ok (body : String) (calls : Nat) (waits : List Nat)
  | fatal (status : Nat) (calls : Nat) (waits : List Nat)
deriving DecidableEq

/-- The while(true) loop of fetchHtml. `resp i` is the (redirect-resolved)
status and body of the i-th fetch call; `rand i` is the random draw used
for the jitter of the retry after call i. `attempt` is the JS attempt
counter, which also indexes the next fetch call. The loop runs at most
MAX_RETRIES iterations because the retry branch recurses only while the
incremented attempt counter is below MAX_RETRIES; `fuel` is an upper bound
on the remaining iterations (MAX_RETRIES − attempt at every call from
fetchHtml), so its zero branch is never reached and recursion is
structural. -/
def fetchLoop (resp : Nat → Nat × String) (rand : Nat → Nat) :
    Nat → Nat → List Nat → FetchOut
  | fuel, attempt, waits =>
    let r := resp attempt
    if okStatus r.1 then .ok r.2 (attempt + 1) waits
    else if retryable r.1 then
      let a' := attempt + 1
      let w := min 60000 (2 ^ a' * 1000) + jitter (rand attempt)
      if a' < MAX_RETRIES then
        match fuel with
        | f + 1 => fetchLoop resp rand f a' (waits ++ [w])
        | 0 => .fatal r.1 (attempt + 1) (waits ++ [w])
      else
        .fatal r.1 (attempt + 1) (waits ++ [w])
    else
      .fatal r.1 (attempt + 1) waits

/-- fetchHtml(url): runs the retry loop from attempt 0 with no sleeps yet. -/
def fetchHtml (resp : Nat → Nat × String) (rand : Nat → Nat) : FetchOut :=
  fetchLoop resp rand MAX_RETRIES 0 []

/-! ### Abstract document tree (the cheerio collaborator) -/

/-- A table cell: its text content and the href attribute of the first
anchor inside it, when one exists. -/
structure Cell where
  text : String
  href : Option String
deriving DecidableEq

/-- A table row: its td cells (in order) and the text content of the whole
row (the concatenation cheerio's .text() returns, used only for the header
check on the first row, whose cells are th elements). -/
structure Row where
  tds : List Cell
  text : String
deriving DecidableEq

/-- A table: its tr rows in document order. -/
structure Table where
  rows : List Row
deriving DecidableEq

/-- A fetched document: its tables in document order and the trimmed text
labels of the paginator anchors (the ".pages a" selection). -/
structure Doc where
  tables : List Table
  pagerLabels : List String
deriving DecidableEq

/-! ### PageExtractor (src/index.js lines 59-98) -/

/-- One harvested record, with the exact fields parsePage pushes. -/
structure Record where
  id : Option String
  name : String
  position : String
  team : String
  nationality : String
  height : Option Int
  weight : Option Int
  age : Option Int
  overall : Option Int
  url : String
deriving DecidableEq

/-- The header heuristic: the first tr's text, lowercased, must contain
both "player name" and "overall". -/
def headerMatch (t : Table) : Bool :=
  let headTxt := lowerChars (((t.rows.head?.map Row.text).getD "").toList)
  hasSeg "player name".toList headTxt && hasSeg "overall".toList headTxt

/-- tables.each with an early break: the first table whose header matches. -/
def findTargetTable (tables : List Table) : Option Table :=
  tables.find? headerMatch

/-- $td.eq(i): the i-th cell, or an empty selection (empty text, no
anchor) when out of range. -/
def cellAt (tds : List Cell) (i : Nat) : Cell :=
  (tds.get? i).getD ⟨"", none⟩

/-- Models new URL(href, BASE).toString() for the href shapes this source
produces (absolute URLs, query-only, absolute-path and relative
references against the fixed base "https://pesdb.net/efootball"). -/
def resolveUrl (href : String) : String :=
  if hasSeg "://".toList href.toList then href
  else if startsWithSeg "?".toList href.toList then BASE ++ href
  else if startsWithSeg "/".toList href.toList then "https://pesdb.net" ++ href
  else "https://pesdb.net/" ++ href

/-- url.match(/(?:\x3f|&)id=(\d+)/): scan left to right for a '?' or '&'
followed by "id=" and at least one digit; capture the maximal digit run. -/
def extractIdChars : List Char → Option String
  | [] => none
  | c :: rest =>
    if c = '?' || c = '&' then
      match rest with
      | 'i' :: 'd' :: '=' :: tail =>
        let ds := tail.takeWhile Char.isDigit
        if ds = [] then extractIdChars rest else some (String.mk ds)
      | _ => extractIdChars rest
    else extractIdChars rest

/-- The ?id= / &id= capture of parsePage, over the resolved url. -/
def extractId (url : String) : Option String :=
  extractIdChars url.toList

/-- The body of the per-row each: rows with fewer than 8 td cells produce
nothing; otherwise the record is built positionally from the leading 8
cells with empty-on-failure numeric parsing. -/
def parseRow (row : Row) : Option Record :=
  let tds := row.tds
  if tds.length < 8 then none
  else
    let position := trimS (cellAt tds 0).text
    let nameCell := cellAt tds 1
    let name := trimS nameCell.text
    let href := (nameCell.href.getD "")
    let url := if href = "" then "" else resolveUrl href
    let team := trimS (cellAt tds 2).text
    let nationality := trimS (cellAt tds 3).text
    let height := numOrNull (cellAt tds 4).text
    let weight := numOrNull (cellAt tds 5).text
    let age := numOrNull (cellAt tds 6).text
    let overall := numOrNull (cellAt tds 7).text
    let id := extractId url
    some ⟨id, name, position, team, nationality, height, weight, age, overall, url⟩

/-- parsePage(html): locate the target table by header heuristic, then
parse every row after the header; no table yields the empty list. -/
def parsePage (d : Doc) : List Record :=
  match findTargetTable d.tables with
  | none => []
  | some t => (t.rows.drop 1).filterMap parseRow

/-! ### PaginationProbe (src/index.js lines 101-110) -/

/-- detectLastPage(html): fold over the paginator labels keeping the
largest integer label seen, starting from 1. -/
def detectLastPage (d : Doc) : Int :=
  d.pagerLabels.foldl
    (fun last t =>
      match jsIntOfLabel t with
      | some n => if last < n then n else last
      | none => last)
    1

/-! ### Deduper (src/index.js lines 165-174) -/

/-- A record's merge key: "id:<id>" when the id is present, otherwise the
JS template `nt:${name}|${team}|${age}` in which a null age renders as
"null". -/
def mergeKey (r : Record) : String :=
  match r.id with
  | some i => "id:" ++ i
  | none =>
    "nt:" ++ r.name ++ "|" ++ r.team ++ "|" ++
      (match r.age with
       | none => "null"
       | some v => toString v)

/-- The dedupe loop of crawlAll: a seen-set of merge keys (modelled as a
list queried by membership) and an output list pushed in first-seen
order. -/
def dedupeLoop : List String → List Record → List Record → List Record
  | _, acc, [] => acc
  | seen, acc, r :: rs =>
    let key := mergeKey r
    if seen.contains key then dedupeLoop seen acc rs
    else dedupeLoop (key :: seen) (acc ++ [r]) rs

/-- The dedupe pass over the accumulator. -/
def dedupe (l : List Record) : List Record := dedupeLoop [] [] l

/-- Written from the spec's words ("the first-seen Record for a given key
wins, later duplicates are discarded silently, preserving first-seen
order"): keep each record and drop every later record with the same merge
key. Used to compare the source's dedupe against the specified one. -/
def dedupeFirstSeen : List Record → List Record
  | [] => []
  | r :: rs =>
    r :: dedupeFirstSeen (rs.filter (fun x => !(mergeKey x == mergeKey r)))
termination_by l => l.length
decreasing_by
  exact Nat.lt_succ_of_le (List.length_filter_le _ _)

/-! ### CrawlOrchestrator (src/index.js lines 127-182) -/

/-- State of the page-walking for loop when it exits: the accumulator, the
checkpoint file content, the page numbers it passed to fetchHtml (in
order) and whether it broke on an error (emitting the error progress
line). -/
structure WalkOut where
  acc : List Record
  cp : Nat
  trace : List Nat
  errored : Bool
deriving DecidableEq

/-- The for loop of crawlAll over its remaining page numbers. `fs i` is
the outcome of the i-th fetchHtml call of the whole run (none = the fetch
threw); `idx` is the index of the next call. On success the page's records
are appended and the checkpoint is saved; on failure the loop breaks at
once, leaving the checkpoint as it was. -/
def walkPages (fs : Nat → Option Doc) :
    List Nat → Nat → List Record → Nat → WalkOut
  | [], _, acc, cp => ⟨acc, cp, [], false⟩
  | p :: rest, idx, acc, cp =>
    match fs idx with
    | none => ⟨acc, cp, [p], true⟩
    | some d =>
      let o := walkPages fs rest (idx + 1) (acc ++ parsePage d) p
      ⟨o.acc, o.cp, p :: o.trace, o.errored⟩

/-- The snapshot value crawlAll returns: deduped records and the page
count. The generation timestamp is wall-clock output and is not
modelled. -/
structure Snap where
  players : List Record
  pages : Nat
deriving DecidableEq

/-- Observable outcome of one crawlAll invocation: the returned snapshot
(none when crawlAll threw), the final checkpoint file content, the page
numbers fetched in order, the accumulator contents at loop exit, and
whether the error progress line was emitted. -/
structure Run where
  snapshot : Option Snap
  cpFinal : Nat
  trace : List Nat
  acc : List Record
  errLine : Bool
deriving DecidableEq

/-- The tail of crawlAll after the loop: dedupe, the end-of-run
`if (loadCheckpoint() >= limit) saveCheckpoint(0)` reset, and the
returned object. `pre` is the pages fetched before the loop. -/
def mkRun (limit : Nat) (w : WalkOut) (pre : List Nat) : Run :=
  ⟨some ⟨dedupe w.acc, limit⟩,
   if limit ≤ w.cp then 0 else w.cp,
   pre ++ w.trace, w.acc, w.errored⟩

/-- crawlAll: fetch the base page (recorded as page 1), probe pagination,
read the checkpoint, process page 1 from the already-fetched document (on
a clean start) or re-fetch the checkpointed page (on resume), then run the
walking loop and finish. `cp0` is the checkpoint file content at start. -/
def crawlAll (fs : Nat → Option Doc) (cp0 : Nat) : Run :=
  match fs 0 with
  | none => ⟨none, cp0, [1], [], false⟩
  | some firstDoc =>
    let lastPage := (detectLastPage firstDoc).toNat
    let limit := if MAX_PAGES_DEBUG > 0 then min lastPage MAX_PAGES_DEBUG else lastPage
    let startPage := if cp0 = 0 then 1 else cp0
    if startPage = 1 then
      let all0 := parsePage firstDoc
      let w := walkPages fs (List.range' 2 (limit + 1 - 2)) 1 all0 1
      mkRun limit w [1]
    else
      match fs 1 with
      | none => ⟨none, cp0, [1, startPage], [], false⟩
      | some resumeDoc =>
        let all0 := parsePage resumeDoc
        let w := walkPages fs (List.range' startPage (limit + 1 - startPage)) 2 all0 cp0
        mkRun limit w [1, startPage]

/-! ### Concrete fixture: an unchanged three-page source

The pages of the source: page p holds one record (distinct per page) in a
table whose header matches parsePage's heuristic; every page shows
paginator links "2" and "3", so the probe detects 3 pages. The fetch
oracles below are all consistent with this one unchanged source: every
call that requests page p yields that page's fixed document. -/

def cellT (s : String) : Cell := ⟨s, none⟩

def headerRow : Row :=
  ⟨[], "Position Player Name Team Name Nationality Height Weight Age Overall"⟩

def dataRow (nm hrf : String) : Row :=
  ⟨[cellT "CF", ⟨nm, some hrf⟩, cellT "TeamX", cellT "Spain",
    cellT "180", cellT "75", cellT "25", cellT "90"], ""⟩

def mkDoc (nm hrf : String) (labels : List String) : Doc :=
  ⟨[⟨[headerRow, dataRow nm hrf]⟩], labels⟩

def page1Doc : Doc := mkDoc "Alpha" "?id=1" ["2", "3"]
def page2Doc : Doc := mkDoc "Bravo" "?id=2" ["2", "3"]
def page3Doc : Doc := mkDoc "Carol" "?id=3" ["2", "3"]

/-- The record parsePage extracts from page 1 of the fixture source. -/
def recA : Record :=
  ⟨some "1", "Alpha", "CF", "TeamX", "Spain", some 180, some 75, some 25, some 90,
   "https://pesdb.net/efootball?id=1"⟩

/-- The record parsePage extracts from page 2 of the fixture source. -/
def recB : Record :=
  ⟨some "2", "Bravo", "CF", "TeamX", "Spain", some 180, some 75, some 25, some 90,
   "https://pesdb.net/efootball?id=2"⟩

/-- The record parsePage extracts from page 3 of the fixture source. -/
def recC : Record :=
  ⟨some "3", "Carol", "CF", "TeamX", "Spain", some 180, some 75, some 25, some 90,
   "https://pesdb.net/efootball?id=3"⟩

/-- Fetch oracle of a clean (checkpoint 0) run over the fixture source:
call 0 is the base page (page 1), the loop then requests pages 2 and 3. -/
def cleanSeq : Nat → Option Doc
  | 0 => some page1Doc
  | 1 => some page2Doc
  | 2 => some page3Doc
  | _ => none

/-- Fetch oracle of a run resumed at checkpoint 2 over the same unchanged
source: call 0 is the base page (page 1, used only for the probe), call 1
is the resume re-fetch of page 2, and the loop then requests pages 2 and 3
again — every call for page p yields page p's fixed document. -/
def resumeSeq : Nat → Option Doc
  | 0 => some page1Doc
  | 1 => some page2Doc
  | 2 => some page2Doc
  | 3 => some page3Doc
  | _ => none

/-- A two-page variant of the fixture source (paginator shows only "2"),
used for the interruption edge case. -/
def page1TwoDoc : Doc := mkDoc "Alpha" "?id=1" ["2"]

/-- Fetch oracle of a run resumed at checkpoint 2 over the two-page
source, in which the resume re-fetch of page 2 (call 1) succeeds but the
walking loop's own fetch of page 2 (call 2) fails — a transient network
failure between the two requests. -/
def resumeFailSeq : Nat → Option Doc
  | 0 => some page1TwoDoc
  | 1 => some page2Doc
  | _ => none

/-- A document with no tables and no paginator markup. -/
def emptyDoc : Doc := ⟨[], []⟩

/-- Fetch oracle in which every call returns the empty document. -/
def emptySeq : Nat → Option Doc := fun _ => some emptyDoc

/-- A paginator whose only link label is "0", which JS parses as the
integer 0. -/
def zeroPagerDoc : Doc := ⟨[], ["0"]⟩

/-! ### Fetch fixtures -/

/-- Responses: one retryable 503, then 200 with body "body". -/
def okAfterRetrySeq : Nat → Nat × String := fun i => if i = 0 then (503, "") else (200, "body")

/-- Responses: 429 on every call. -/
def always429Seq : Nat → Nat × String := fun _ => (429, "")

/-- Responses: 404 on every call. -/
def always404Seq : Nat → Nat × String := fun _ => (404, "")

/-- A fixed random source for the jitter draws. -/
def zeroRand : Nat → Nat := fun _ => 0

/-- The sleeps a run against a constantly-429 source performs: the wait
after attempt n is min(60000, 2^n*1000) ms plus the jitter drawn for that
retry. -/
def waits429 (rand : Nat → Nat) : List Nat :=
  [2000 + jitter (rand 0), 4000 + jitter (rand 1), 8000 + jitter (rand 2),
   16000 + jitter (rand 3), 32000 + jitter (rand 4)]

/-! ### Step lemmas for the fetch retry loop -/

theorem retryable_not_ok {s : Nat} (h : retryable s = true) : okStatus s = false := by
  simp only [retryable, okStatus] at *
  simp only [Bool.or_eq_true, beq_iff_eq, Bool.and_eq_true, decide_eq_true_eq] at h
  simp only [Bool.and_eq_false_iff, decide_eq_false_iff_not, not_le]
  omega

theorem fetchLoop_ok {resp : Nat → Nat × String} {rand : Nat → Nat}
    {fuel a : Nat} {ws : List Nat} (h : okStatus (resp a).1 = true) :
    fetchLoop resp rand fuel a ws = .ok (resp a).2 (a + 1) ws := by
  rw [fetchLoop]
  simp [h]

theorem fetchLoop_retry {resp : Nat → Nat × String} {rand : Nat → Nat}
    {f a : Nat} {ws : List Nat}
    (h1 : okStatus (resp a).1 = false) (h2 : retryable (resp a).1 = true)
    (h3 : a + 1 < MAX_RETRIES) :
    fetchLoop resp rand (f + 1) a ws =
      fetchLoop resp rand f (a + 1)
        (ws ++ [min 60000 (2 ^ (a + 1) * 1000) + jitter (rand a)]) := by
  rw [fetchLoop]
  simp [h1, h2, h3]

theorem fetchLoop_exhaust {resp : Nat → Nat × String} {rand : Nat → Nat}
    {fuel a : Nat} {ws : List Nat}
    (h1 : okStatus (resp a).1 = false) (h2 : retryable (resp a).1 = true)
    (h3 : ¬ (a + 1 < MAX_RETRIES)) :
    fetchLoop resp rand fuel a ws =
      .fatal (resp a).1 (a + 1)
        (ws ++ [min 60000 (2 ^ (a + 1) * 1000) + jitter (rand a)]) := by
  rw [fetchLoop]
  simp [h1, h2, h3]

theorem fetchLoop_hardfail {resp : Nat → Nat × String} {rand : Nat → Nat}
    {fuel a : Nat} {ws : List Nat}
    (h1 : okStatus (resp a).1 = false) (h2 : retryable (resp a).1 = false) :
    fetchLoop resp rand fuel a ws = .fatal (resp a).1 (a + 1) ws := by
  rw [fetchLoop]
  simp [h1, h2]

/-- Reaching attempt j: when the first j calls are all retryable the loop
arrives at attempt j with the matching fuel and some accumulated sleeps. -/
theorem fetchLoop_reach {resp : Nat → Nat × String} {rand : Nat → Nat} :
    ∀ j : Nat, j < MAX_RETRIES →
    (∀ i, i < j → retryable (resp i).1 = true) →
    ∃ ws : List Nat, fetchHtml resp rand = fetchLoop resp rand (MAX_RETRIES - j) j ws := by
  intro j
  induction j with
  | zero => intro _ _; exact ⟨[], rfl⟩
  | succ j ih =>
    intro hj hpre
    obtain ⟨ws, hws⟩ := ih (by omega) (fun i hi => hpre i (by omega))
    have hr : retryable (resp j).1 = true := hpre j (by omega)
    have hok : okStatus (resp j).1 = false := retryable_not_ok hr
    obtain ⟨f, hf⟩ : ∃ f, MAX_RETRIES - j = f + 1 := ⟨MAX_RETRIES - j - 1, by
      simp only [MAX_RETRIES] at *; omega⟩
    refine ⟨ws ++ [min 60000 (2 ^ (j + 1) * 1000) + jitter (rand j)], ?_⟩
    rw [hws, hf, fetchLoop_retry hok hr hj]
    congr 1
    simp only [MAX_RETRIES] at *
    omega

/-- Fatal after a retryable status always carries the full backoff sleep:
if the loop (entered with fuel covering the remaining budget) ends fatal
with a retryable status, the budget was exhausted (MAX_RETRIES calls) and
the list of sleeps ends with the full backoff of the final attempt,
performed before the throw. -/
theorem fetchLoop_fatal_retryable {resp : Nat → Nat × String} {rand : Nat → Nat} :
    ∀ (fuel a : Nat) (ws0 : List Nat) (s c : Nat) (ws : List Nat),
    fuel + a = MAX_RETRIES → a < MAX_RETRIES →
    fetchLoop resp rand fuel a ws0 = .fatal s c ws →
    retryable s = true →
    c = MAX_RETRIES ∧ ws.length = ws0.length + (MAX_RETRIES - a) ∧
      ws.getLast? = some (min 60000 (2 ^ MAX_RETRIES * 1000) + jitter (rand (MAX_RETRIES - 1))) := by
  intro fuel
  induction fuel with
  | zero =>
    intro a ws0 s c ws hfa ha _ _
    simp only [MAX_RETRIES] at *
    omega
  | succ f ih =>
    intro a ws0 s c ws hfa ha h hr
    by_cases hok : okStatus (resp a).1 = true
    · rw [fetchLoop_ok hok] at h
      exact absurd h (by simp)
    · rw [Bool.not_eq_true] at hok
      by_cases hrt : retryable (resp a).1 = true
      · by_cases hlt : a + 1 < MAX_RETRIES
        · rw [fetchLoop_retry hok hrt hlt] at h
          have := ih (a + 1)
            (ws0 ++ [min 60000 (2 ^ (a + 1) * 1000) + jitter (rand a)]) s c ws
            (by omega) hlt h hr
          refine ⟨this.1, ?_, this.2.2⟩
          have hlen := this.2.1
          simp only [List.length_append, List.length_cons, List.length_nil] at hlen
          omega
        · rw [fetchLoop_exhaust hok hrt hlt] at h
          injection h with h1 h2 h3
          have ha4 : a = MAX_RETRIES - 1 := by simp only [MAX_RETRIES] at *; omega
          subst ha4
          refine ⟨by simp only [MAX_RETRIES] at *; omega, ?_, ?_⟩
          · rw [← h3]
            simp only [List.length_append, List.length_cons, List.length_nil]
            simp only [MAX_RETRIES]
          · rw [← h3, List.getLast?_concat]
            congr 2
      · rw [Bool.not_eq_true] at hrt
        rw [fetchLoop_hardfail hok hrt] at h
        injection h with h1 _ _
        rw [← h1] at hr
        rw [hr] at hrt
        exact absurd hrt (by simp)

/-! ### Lemmas about detectLastPage -/

theorem detectFold_eq_foldl_max :
    ∀ (ls : List String) (a : Int),
    List.foldl
      (fun last t =>
        match jsIntOfLabel t with
        | some n => if last < n then n else last
        | none => last)
      a ls
      = List.foldl max a (ls.filterMap jsIntOfLabel) := by
  intro ls
  induction ls with
  | nil => intro a; rfl
  | cons s ls ih =>
    intro a
    cases hj : jsIntOfLabel s with
    | none => simp [List.foldl_cons, hj, ih, List.filterMap_cons]
    | some n =>
      simp only [List.foldl_cons, hj, List.filterMap_cons, ih]
      congr 1
      rcases lt_or_ge a n with h | h
      · rw [if_pos h, max_eq_right (le_of_lt h)]
      · rw [if_neg (not_lt.mpr h), max_eq_left h]

theorem le_foldl_max : ∀ (l : List Int) (a : Int), a ≤ List.foldl max a l := by
  intro l
  induction l with
  | nil => intro a; exact le_refl a
  | cons x l ih =>
    intro a
    exact le_trans (le_max_left a x) (ih (max a x))

theorem one_le_detectLastPage (d : Doc) : 1 ≤ detectLastPage d := by
  rw [detectLastPage, detectFold_eq_foldl_max]
  exact le_foldl_max _ 1

theorem one_le_detectLastPage_toNat (d : Doc) : 1 ≤ (detectLastPage d).toNat := by
  have := one_le_detectLastPage d
  omega

/-! ### Lemmas about the dedupe pass -/

theorem dedupeLoop_append :
    ∀ (l : List Record) (seen : List String) (acc : List Record),
    dedupeLoop seen acc l = acc ++ dedupeLoop seen [] l := by
  intro l
  induction l with
  | nil => intro seen acc; simp [dedupeLoop]
  | cons r rs ih =>
    intro seen acc
    by_cases hc : seen.contains (mergeKey r)
    · simp only [dedupeLoop, hc, if_pos]
      exact ih seen acc
    · simp only [dedupeLoop, hc, if_neg, Bool.false_eq_true, not_false_eq_true]
      rw [ih _ (acc ++ [r]), ih _ ([] ++ [r])]
      simp

theorem dedupeLoop_eq_firstSeen :
    ∀ (n : Nat) (l : List Record) (seen : List String), l.length ≤ n →
    dedupeLoop seen [] l
      = dedupeFirstSeen (l.filter (fun x => !(seen.contains (mergeKey x)))) := by
  intro n
  induction n with
  | zero =>
    intro l seen hl
    have : l = [] := List.length_eq_zero.mp (Nat.le_zero.mp hl)
    subst this
    simp [dedupeLoop, dedupeFirstSeen]
  | succ n ih =>
    intro l seen hl
    cases l with
    | nil => simp [dedupeLoop, dedupeFirstSeen]
    | cons r rs =>
      simp only [List.length_cons, Nat.succ_le_succ_iff] at hl
      by_cases hc : seen.contains (mergeKey r) = true
      · have e : dedupeLoop seen [] (r :: rs) = dedupeLoop seen [] rs := by
          simp only [dedupeLoop]
          rw [if_pos hc]
        rw [e, ih rs seen hl]
        congr 1
        rw [List.filter_cons_of_neg
          (by simp only [hc, Bool.not_true, Bool.false_eq_true, not_false_eq_true])]
      · rw [Bool.not_eq_true] at hc
        have e1 : dedupeLoop seen [] (r :: rs)
            = dedupeLoop (mergeKey r :: seen) [r] rs := by
          simp only [dedupeLoop]
          rw [if_neg (by rw [hc]; exact Bool.false_ne_true)]
          simp only [List.nil_append]
        have e2 : dedupeLoop (mergeKey r :: seen) [r] rs
            = [r] ++ dedupeLoop (mergeKey r :: seen) [] rs :=
          dedupeLoop_append rs (mergeKey r :: seen) [r]
        rw [e1, e2, ih rs (mergeKey r :: seen) hl]
        rw [List.filter_cons_of_pos (by simp only [hc, Bool.not_false])]
        simp only [dedupeFirstSeen, List.filter_filter, List.singleton_append,
          List.cons.injEq, true_and]
        congr 1
        apply List.filter_congr
        intro x _
        simp only [List.contains_cons, Bool.not_or]

/-- The source's seen-set dedupe loop computes exactly the first-seen-wins
dedup written from the spec's words. -/
theorem dedupe_eq_firstSeen (l : List Record) : dedupe l = dedupeFirstSeen l := by
  have h := dedupeLoop_eq_firstSeen l.length l [] le_rfl
  rw [dedupe, h]
  congr 1
  have : (fun (x : Record) => !(([] : List String).contains (mergeKey x)))
      = fun _ => true := by
    funext x
    rfl
  rw [this, List.filter_true]

theorem dedupeFirstSeen_sublist :
    ∀ (n : Nat) (l : List Record), l.length ≤ n →
      List.Sublist (dedupeFirstSeen l) l := by
  intro n
  induction n with
  | zero =>
    intro l hl
    have : l = [] := List.length_eq_zero.mp (Nat.le_zero.mp hl)
    subst this
    simp [dedupeFirstSeen]
  | succ n ih =>
    intro l hl
    cases l with
    | nil => simp [dedupeFirstSeen]
    | cons r rs =>
      simp only [List.length_cons, Nat.succ_le_succ_iff] at hl
      simp only [dedupeFirstSeen]
      exact List.Sublist.cons₂ r
        (List.Sublist.trans
          (ih _ (le_trans (List.length_filter_le _ _) hl))
          (List.filter_sublist rs))

theorem dedupeFirstSeen_keys_nodup :
    ∀ (n : Nat) (l : List Record), l.length ≤ n →
    ((dedupeFirstSeen l).map mergeKey).Nodup := by
  intro n
  induction n with
  | zero =>
    intro l hl
    have : l = [] := List.length_eq_zero.mp (Nat.le_zero.mp hl)
    subst this
    simp [dedupeFirstSeen]
  | succ n ih =>
    intro l hl
    cases l with
    | nil => simp [dedupeFirstSeen]
    | cons r rs =>
      simp only [List.length_cons, Nat.succ_le_succ_iff] at hl
      simp only [dedupeFirstSeen, List.map_cons, List.nodup_cons]
      constructor
      · intro hmem
        obtain ⟨x, hx, hkey⟩ := List.mem_map.mp hmem
        have hxf : x ∈ rs.filter (fun y => !(mergeKey y == mergeKey r)) :=
          (dedupeFirstSeen_sublist _ _ le_rfl).subset hx
        have := (List.mem_filter.mp hxf).2
        rw [hkey] at this
        simp at this
      · exact ih _ (le_trans (List.length_filter_le _ _) hl)

/-! ### Lemmas about the walking loop -/

/-- The pages the loop passes to fetchHtml form a contiguous initial run
of its schedule: range' s m for some m ≤ n, nonempty as soon as the
schedule is. -/
theorem walkPages_trace_shape (fs : Nat → Option Doc) :
    ∀ (n s idx : Nat) (acc : List Record) (cp : Nat),
    ∃ m, m ≤ n ∧
      (walkPages fs (List.range' s n) idx acc cp).trace = List.range' s m ∧
      (1 ≤ n → 1 ≤ m) := by
  intro n
  induction n with
  | zero =>
    intro s idx acc cp
    exact ⟨0, le_refl 0, rfl, by omega⟩
  | succ n ih =>
    intro s idx acc cp
    rw [List.range'_succ]
    cases hf : fs idx with
    | none =>
      refine ⟨1, by omega, ?_, by omega⟩
      simp [walkPages, hf, List.range'_one]
    | some d =>
      obtain ⟨m, hm, htr, _⟩ := ih (s + 1) (idx + 1) (acc ++ parsePage d) s
      refine ⟨m + 1, by omega, ?_, by omega⟩
      simp only [walkPages, hf]
      rw [List.range'_succ]
      simp [htr]

/-- When the loop exits without error it either had no pages to visit or
saved the last scheduled page as the checkpoint. -/
theorem walkPages_cp_ok (fs : Nat → Option Doc) :
    ∀ (n s idx : Nat) (acc : List Record) (cp : Nat),
    (walkPages fs (List.range' s n) idx acc cp).errored = false →
    (n = 0 ∧ walkPages fs (List.range' s n) idx acc cp = ⟨acc, cp, [], false⟩) ∨
    (1 ≤ n ∧ (walkPages fs (List.range' s n) idx acc cp).cp = s + n - 1) := by
  intro n
  induction n with
  | zero =>
    intro s idx acc cp _
    exact Or.inl ⟨rfl, rfl⟩
  | succ n ih =>
    intro s idx acc cp herr
    rw [List.range'_succ] at herr ⊢
    cases hf : fs idx with
    | none => simp [walkPages, hf] at herr
    | some d =>
      simp only [walkPages, hf] at herr ⊢
      rcases ih (s + 1) (idx + 1) (acc ++ parsePage d) s herr with ⟨hn, hw⟩ | ⟨hn, hw⟩
      · subst hn
        rw [hw]
        exact Or.inr ⟨by omega, by simp⟩
      · exact Or.inr ⟨by omega, by rw [hw]; omega⟩

/-- When the loop breaks on an error the checkpoint it leaves behind is
either the one it started with or a page strictly before the last
scheduled one; either way the schedule was nonempty. -/
theorem walkPages_cp_err (fs : Nat → Option Doc) :
    ∀ (n s idx : Nat) (acc : List Record) (cp : Nat),
    (walkPages fs (List.range' s n) idx acc cp).errored = true →
    1 ≤ n ∧
      ((walkPages fs (List.range' s n) idx acc cp).cp = cp ∨
        (s ≤ (walkPages fs (List.range' s n) idx acc cp).cp ∧
          (walkPages fs (List.range' s n) idx acc cp).cp + 1 < s + n)) := by
  intro n
  induction n with
  | zero =>
    intro s idx acc cp herr
    simp [walkPages] at herr
  | succ n ih =>
    intro s idx acc cp herr
    rw [List.range'_succ] at herr ⊢
    cases hf : fs idx with
    | none =>
      refine ⟨by omega, Or.inl ?_⟩
      simp [walkPages, hf]
    | some d =>
      simp only [walkPages, hf] at herr ⊢
      obtain ⟨hn, hcp⟩ := ih (s + 1) (idx + 1) (acc ++ parsePage d) s herr
      refine ⟨by omega, Or.inr ?_⟩
      rcases hcp with h | ⟨h1, h2⟩
      · rw [h]; omega
      · omega

/-- The loop only ever appends to the accumulator it is given: whatever
records enter the loop stay at the front, in order. -/
theorem walkPages_acc_extends (fs : Nat → Option Doc) :
    ∀ (pages : List Nat) (idx : Nat) (acc : List Record) (cp : Nat),
    ∃ rest, (walkPages fs pages idx acc cp).acc = acc ++ rest := by
  intro pages
  induction pages with
  | nil => intro idx acc cp; exact ⟨[], by simp [walkPages]⟩
  | cons p rest ih =>
    intro idx acc cp
    cases hf : fs idx with
    | none => exact ⟨[], by simp [walkPages, hf]⟩
    | some d =>
      obtain ⟨tail, htail⟩ := ih (idx + 1) (acc ++ parsePage d) p
      refine ⟨parsePage d ++ tail, ?_⟩
      simp only [walkPages, hf, htail, List.append_assoc]

/-- When the loop breaks on an error, its fetch trace is the contiguous
block of pages from its start up to and including the failing page, and
the fetch call recorded last (call number idx + m - 1) is the one that
failed; no page beyond the failing one is ever requested. -/
theorem walkPages_err_trace (fs : Nat → Option Doc) :
    ∀ (n s idx : Nat) (acc : List Record) (cp : Nat),
    (walkPages fs (List.range' s n) idx acc cp).errored = true →
    ∃ m, 1 ≤ m ∧ m ≤ n ∧
      (walkPages fs (List.range' s n) idx acc cp).trace = List.range' s m ∧
      fs (idx + m - 1) = none := by
  intro n
  induction n with
  | zero =>
    intro s idx acc cp herr
    simp [walkPages] at herr
  | succ n ih =>
    intro s idx acc cp herr
    rw [List.range'_succ] at herr ⊢
    cases hf : fs idx with
    | none =>
      refine ⟨1, le_refl 1, by omega, ?_, by simpa using hf⟩
      simp [walkPages, hf, List.range'_one]
    | some d =>
      simp only [walkPages, hf] at herr ⊢
      obtain ⟨m, hm1, hmn, htr, hfail⟩ := ih (s + 1) (idx + 1) (acc ++ parsePage d) s herr
      refine ⟨m + 1, by omega, by omega, ?_, ?_⟩
      · rw [List.range'_succ]
        simp [htr]
      · rw [show idx + (m + 1) - 1 = idx + 1 + m - 1 by omega]
        exact hfail

/-! ### crawlAll structure lemma -/

/-- Whenever crawlAll returns a snapshot, its players are exactly the
dedupe pass over the run's accumulator. -/
theorem crawlAll_players_eq_dedupe (fs : Nat → Option Doc) (cp0 : Nat) (snap : Snap)
    (h : (crawlAll fs cp0).snapshot = some snap) :
    snap.players = dedupe ((crawlAll fs cp0).acc) := by
  have h0 : (∃ d, fs 0 = some d) ∨ fs 0 = none := by
    cases fs 0 with
    | none => exact Or.inr rfl
    | some d => exact Or.inl ⟨d, rfl⟩
  rw [crawlAll] at h ⊢
  rcases h0 with ⟨d0, hf0⟩ | hf0
  · rw [hf0] at h ⊢
    dsimp only at h ⊢
    by_cases hsp : (if cp0 = 0 then 1 else cp0) = 1
    · rw [if_pos hsp] at h ⊢
      simp only [mkRun] at h ⊢
      injection h with h
      rw [← h]
    · rw [if_neg hsp] at h ⊢
      have h1 : (∃ d, fs 1 = some d) ∨ fs 1 = none := by
        cases fs 1 with
        | none => exact Or.inr rfl
        | some d => exact Or.inl ⟨d, rfl⟩
      rcases h1 with ⟨d1, hf1⟩ | hf1
      · rw [hf1] at h ⊢
        simp only [mkRun] at h ⊢
        injection h with h
        rw [← h]
      · rw [hf1] at h
        simp at h
  · rw [hf0] at h
    simp at h

/-! ### Helper lemmas for the extractor claims -/

theorem numOrNull_eq_none_of (t : String)
    (h : jsNum t = none ∨ trimS t = "") : numOrNull t = none := by
  rcases h with h | h
  · rw [numOrNull, h]
  · have ht : trimChars t.data = [] := by
      have h2 := congrArg String.toList h
      simpa [trimS] using h2
    rw [numOrNull, jsNum]
    simp [ht]

theorem numOrNull_eq_none_of_zero (t : String)
    (h : jsNum t = some 0) : numOrNull t = none := by
  rw [numOrNull, h]
  simp

/-! ### Claim theorems -/

/-- C6: parsePage never fails: when no table's header row contains both
the "player name" marker and the "overall" marker it returns the empty
list; a data row with fewer than 8 cells produces no Record at all; a row
with 8 or more cells always produces a Record, and any numeric field
whose cell is absent/empty or unparseable comes out as none rather than
an error. -/
theorem parsePage_total_robust :
    (∀ d : Doc, (∀ t, t ∈ d.tables → headerMatch t = false) → parsePage d = [])
    ∧ (∀ row : Row, row.tds.length < 8 → parseRow row = none)
    ∧ (∀ row : Row, 8 ≤ row.tds.length →
        ∃ r, parseRow row = some r
          ∧ ((jsNum (cellAt row.tds 4).text = none ∨ trimS (cellAt row.tds 4).text = "") →
              r.height = none)
          ∧ ((jsNum (cellAt row.tds 5).text = none ∨ trimS (cellAt row.tds 5).text = "") →
              r.weight = none)
          ∧ ((jsNum (cellAt row.tds 6).text = none ∨ trimS (cellAt row.tds 6).text = "") →
              r.age = none)
          ∧ ((jsNum (cellAt row.tds 7).text = none ∨ trimS (cellAt row.tds 7).text = "") →
              r.overall = none)) := by
  refine ⟨?_, ?_, ?_⟩
  · intro d h
    have hnone : findTargetTable d.tables = none := by
      rw [findTargetTable]
      exact List.find?_eq_none.mpr (fun x hx => by simp [h x hx])
    rw [parsePage, hnone]
  · intro row h
    simp only [parseRow]
    rw [if_pos h]
  · intro row h
    simp only [parseRow]
    rw [if_neg (by omega)]
    refine ⟨_, rfl, ?_, ?_, ?_, ?_⟩ <;>
      exact fun hz => numOrNull_eq_none_of _ hz

/-- Witness for C6: a 7-cell row yields no record; an 8-cell row with an
unparseable height cell yields a record whose height is none; a document
whose only table has a non-matching header parses to the empty list. -/
theorem parsePage_total_robust_witness :
    (parsePage ⟨[⟨[⟨[], "just some text"⟩]⟩], []⟩ = []
      ∧ parseRow ⟨[cellT "a", cellT "b", cellT "c", cellT "d", cellT "e",
          cellT "f", cellT "g"], ""⟩ = none)
    ∧ ∃ r, parseRow ⟨[cellT "CF", cellT "Zed", cellT "T", cellT "N",
          cellT "tall", cellT "75", cellT "25", cellT "90"], ""⟩ = some r
        ∧ r.height = none := by
  refine ⟨⟨?_, ?_⟩, ?_⟩
  · exact parsePage_total_robust.1 _ (by decide)
  · exact parsePage_total_robust.2.1 _ (by decide)
  · obtain ⟨r, hr, hh, -, -, -⟩ :=
      parsePage_total_robust.2.2 ⟨[cellT "CF", cellT "Zed", cellT "T", cellT "N",
        cellT "tall", cellT "75", cellT "25", cellT "90"], ""⟩ (by decide)
    exact ⟨r, hr, hh (Or.inl (by decide))⟩

/-- C9: in parseRow, a numeric cell whose text parses to the number 0
yields none for that field, exactly like an absent or unparseable cell
(numOrNull "0" and numOrNull "" agree), so a genuine zero is
indistinguishable from a missing value in the produced Record. -/
theorem parseRow_zero_as_null (row : Row) (r : Record)
    (h : parseRow row = some r) :
    (jsNum (cellAt row.tds 4).text = some 0 → r.height = none)
    ∧ (jsNum (cellAt row.tds 5).text = some 0 → r.weight = none)
    ∧ (jsNum (cellAt row.tds 6).text = some 0 → r.age = none)
    ∧ (jsNum (cellAt row.tds 7).text = some 0 → r.overall = none)
    ∧ numOrNull "0" = numOrNull "" := by
  by_cases hl : row.tds.length < 8
  · simp only [parseRow] at h
    rw [if_pos hl] at h
    exact absurd h (by simp)
  · simp only [parseRow] at h
    rw [if_neg hl] at h
    injection h with h
    subst h
    refine ⟨?_, ?_, ?_, ?_, by decide⟩ <;>
      exact fun hz => numOrNull_eq_none_of_zero _ hz

/-- Witness for C9: a full row whose height cell reads "0" produces a
record with height none. -/
theorem parseRow_zero_as_null_witness :
    (∃ r, parseRow ⟨[cellT "CF", cellT "Zed", cellT "T", cellT "N",
        cellT "0", cellT "75", cellT "25", cellT "90"], ""⟩ = some r
      ∧ r.height = none)
    ∧ jsNum "0" = some 0 := by
  refine ⟨?_, by decide⟩
  refine ⟨⟨none, "Zed", "CF", "T", "N", none, some 75, some 25, some 90, ""⟩, ?_, ?_⟩
  · decide
  · exact (parseRow_zero_as_null
      ⟨[cellT "CF", cellT "Zed", cellT "T", cellT "N",
        cellT "0", cellT "75", cellT "25", cellT "90"], ""⟩
      ⟨none, "Zed", "CF", "T", "N", none, some 75, some 25, some 90, ""⟩
      (by decide)).1 (by decide)

/-- C8 counterexample: a paginator whose only link label is "0" parses to
the integer 0 (so the maximum integer obtained from the labels is 0), yet
detectLastPage returns 1, not that maximum. -/
theorem detectLastPage_not_label_max :
    zeroPagerDoc.pagerLabels.filterMap jsIntOfLabel = [0]
    ∧ detectLastPage zeroPagerDoc = 1
    ∧ detectLastPage zeroPagerDoc ≠ 0 := by
  refine ⟨by decide, by decide, by decide⟩

/-- C8 amended: detectLastPage never fails and returns the maximum of 1
and all integer-parsed paginator labels (ignoring labels that do not
parse as integers); in particular it is always at least 1, and equals 1
when there is no paginator markup or no integer label. -/
theorem detectLastPage_max_with_one (d : Doc) :
    detectLastPage d = (d.pagerLabels.filterMap jsIntOfLabel).foldl max 1
    ∧ 1 ≤ detectLastPage d := by
  constructor
  · rw [detectLastPage, detectFold_eq_foldl_max]
  · exact one_le_detectLastPage d

/-- C1: over the same unchanged three-page source, a clean crawl returns
the records of pages 1..3, but a run resumed at checkpoint 2 (the state
left by a crash after checkpointing page 2) returns only the records of
pages 2..3: the accumulator starts empty and nothing reloads the earlier
pages' records, so the resumed snapshot is NOT equal to the uninterrupted
one — the claimed resumability equality fails on the code. -/
theorem crawlAll_resume_loses_prior_pages :
    (crawlAll cleanSeq 0).snapshot = some ⟨[recA, recB, recC], 3⟩
    ∧ (crawlAll resumeSeq 2).snapshot = some ⟨[recB, recC], 3⟩
    ∧ ([recB, recC] : List Record) ≠ [recA, recB, recC] := by
  refine ⟨by decide, by decide, by decide⟩

/-- C2 counterexample: on the resumed run the checkpointed page 2 is
fetched twice — once by the resume step and once by the first iteration
of the walking loop — so it is not "fetched and extracted exactly once". -/
theorem crawlAll_resume_double_fetch :
    (crawlAll resumeSeq 2).trace = [1, 2, 2, 3]
    ∧ List.count 2 (crawlAll resumeSeq 2).trace = 2 := by
  refine ⟨by decide, by decide⟩

/-- C7 counterexample: resuming at checkpoint 2 over a source whose last
page is 2, with the loop's fetch of page 2 failing (after the resume
re-fetch succeeded), the run emits the error line and still resets the
checkpoint to 0 — the end-of-run reset fires on a failed run and the last
saved checkpoint value (2) is not left intact. -/
theorem crawlAll_error_still_resets_checkpoint :
    (crawlAll resumeFailSeq 2).errLine = true
    ∧ (crawlAll resumeFailSeq 2).cpFinal = 0
    ∧ (crawlAll resumeFailSeq 2).snapshot.isSome = true := by
  refine ⟨by decide, by decide, by decide⟩

/-- C3: fetchHtml returns the body of the first 2xx response, provided
every earlier response was retryable (429/5xx) and the attempt budget was
not yet exhausted; when all MAX_RETRIES responses are retryable it raises
the fatal error only then, after the full budget; and a non-2xx,
non-retryable response raises the fatal error immediately on that very
call, with no further attempt (the calls count equals the position of the
offending response). -/
theorem fetchHtml_status_policy (resp : Nat → Nat × String) (rand : Nat → Nat) :
    (∀ j, j < MAX_RETRIES → okStatus (resp j).1 = true →
      (∀ i, i < j → retryable (resp i).1 = true) →
      ∃ ws, fetchHtml resp rand = .ok (resp j).2 (j + 1) ws)
    ∧ ((∀ i, i < MAX_RETRIES → retryable (resp i).1 = true) →
      ∃ ws, fetchHtml resp rand = .fatal (resp (MAX_RETRIES - 1)).1 MAX_RETRIES ws)
    ∧ (∀ j, j < MAX_RETRIES → okStatus (resp j).1 = false →
      retryable (resp j).1 = false →
      (∀ i, i < j → retryable (resp i).1 = true) →
      ∃ ws, fetchHtml resp rand = .fatal (resp j).1 (j + 1) ws) := by
  refine ⟨?_, ?_, ?_⟩
  · intro j hj hok hpre
    obtain ⟨ws, hws⟩ := fetchLoop_reach j hj hpre
    exact ⟨ws, by rw [hws, fetchLoop_ok hok]⟩
  · intro hall
    have h4 : MAX_RETRIES - 1 < MAX_RETRIES := by decide
    obtain ⟨ws, hws⟩ := fetchLoop_reach (MAX_RETRIES - 1) h4
      (fun i hi => hall i (by omega))
    have hr : retryable (resp (MAX_RETRIES - 1)).1 = true := hall _ h4
    have hok : okStatus (resp (MAX_RETRIES - 1)).1 = false := retryable_not_ok hr
    refine ⟨ws ++ [min 60000 (2 ^ (MAX_RETRIES - 1 + 1) * 1000)
      + jitter (rand (MAX_RETRIES - 1))], ?_⟩
    rw [hws, fetchLoop_exhaust hok hr (by decide)]
    rfl
  · intro j hj hok hrt hpre
    obtain ⟨ws, hws⟩ := fetchLoop_reach j hj hpre
    exact ⟨ws, by rw [hws, fetchLoop_hardfail hok hrt]⟩

/-- Witness for C3: a 2xx after one retryable response returns its body
on call 2; constant 429 ends fatal after the 5-call budget; constant 404
ends fatal on call 1 with no retry. -/
theorem fetchHtml_status_policy_witness :
    (∃ ws, fetchHtml okAfterRetrySeq zeroRand = .ok "body" 2 ws)
    ∧ (∃ ws, fetchHtml always429Seq zeroRand = .fatal 429 MAX_RETRIES ws)
    ∧ (∃ ws, fetchHtml always404Seq zeroRand = .fatal 404 1 ws) := by
  refine ⟨?_, ?_, ?_⟩
  · exact (fetchHtml_status_policy okAfterRetrySeq zeroRand).1 1 (by decide) (by decide)
      (fun i hi => by
        have : i = 0 := by omega
        subst this
        decide)
  · exact (fetchHtml_status_policy always429Seq zeroRand).2.1 (fun i _ => rfl)
  · exact (fetchHtml_status_policy always404Seq zeroRand).2.2 0 (by decide) (by decide)
      (by decide) (fun i hi => absurd hi (by omega))

/-- C4: against a source answering 429 on every call, fetchHtml makes
exactly MAX_RETRIES = 5 calls and then raises the fatal error; the wait
after attempt n is min(60000, 2^n*1000) plus that attempt's jitter, each
jitter lies in [2500, 4000], and the total wait is bounded by 60000*4 plus
the sum of the jitters. -/
theorem fetchHtml_backoff_429 (resp : Nat → Nat × String) (rand : Nat → Nat)
    (h : ∀ i, i < MAX_RETRIES → (resp i).1 = 429) :
    fetchHtml resp rand = .fatal 429 MAX_RETRIES (waits429 rand)
    ∧ (waits429 rand).length = MAX_RETRIES
    ∧ (∀ k, k < MAX_RETRIES →
        (waits429 rand)[k]? = some (min 60000 (2 ^ (k + 1) * 1000) + jitter (rand k)))
    ∧ (∀ r, REQUEST_DELAY_MS_MIN ≤ jitter r ∧ jitter r ≤ REQUEST_DELAY_MS_MAX)
    ∧ (waits429 rand).sum
        ≤ 60000 * 4 + (jitter (rand 0) + jitter (rand 1) + jitter (rand 2)
            + jitter (rand 3) + jitter (rand 4)) := by
  have st : ∀ i, i < MAX_RETRIES →
      okStatus (resp i).1 = false ∧ retryable (resp i).1 = true := by
    intro i hi
    rw [h i hi]
    exact ⟨by decide, by decide⟩
  refine ⟨?_, rfl, ?_, ?_, ?_⟩
  · rw [fetchHtml]
    rw [show (MAX_RETRIES : Nat) = 4 + 1 from rfl,
      fetchLoop_retry (st 0 (by decide)).1 (st 0 (by decide)).2 (by decide),
      show (4 : Nat) = 3 + 1 from rfl,
      fetchLoop_retry (st 1 (by decide)).1 (st 1 (by decide)).2 (by decide),
      show (3 : Nat) = 2 + 1 from rfl,
      fetchLoop_retry (st 2 (by decide)).1 (st 2 (by decide)).2 (by decide),
      show (2 : Nat) = 1 + 1 from rfl,
      fetchLoop_retry (st 3 (by decide)).1 (st 3 (by decide)).2 (by decide),
      fetchLoop_exhaust (st 4 (by decide)).1 (st 4 (by decide)).2 (by decide)]
    rw [h 4 (by decide)]
    simp only [List.nil_append, List.cons_append, waits429]
    norm_num
  · intro k hk
    have hk5 : k < 5 := hk
    interval_cases k <;> simp [waits429]
  · intro r
    have hm : r % (REQUEST_DELAY_MS_MAX - REQUEST_DELAY_MS_MIN + 1)
        < REQUEST_DELAY_MS_MAX - REQUEST_DELAY_MS_MIN + 1 :=
      Nat.mod_lt r (by decide)
    simp only [jitter, REQUEST_DELAY_MS_MIN, REQUEST_DELAY_MS_MAX] at *
    omega
  · simp only [waits429, List.sum_cons, List.sum_nil]
    omega

/-- Witness for C4: the constant-429 source satisfies the hypothesis and
the run ends fatal after the 5 recorded sleeps. -/
theorem fetchHtml_backoff_429_witness :
    (∀ i, i < MAX_RETRIES → (always429Seq i).1 = 429)
    ∧ fetchHtml always429Seq zeroRand = .fatal 429 MAX_RETRIES (waits429 zeroRand) :=
  ⟨fun _ _ => rfl, (fetchHtml_backoff_429 always429Seq zeroRand (fun _ _ => rfl)).1⟩

/-- C10: whenever fetchHtml ends fatal with a retryable status (429/5xx),
the full budget of MAX_RETRIES calls was used and the recorded sleeps end
with the complete backoff of the final attempt,
min(60000, 2^MAX_RETRIES*1000) plus its jitter — the sleep is performed
before the error is raised, never skipped. -/
theorem fetchHtml_sleep_before_fatal (resp : Nat → Nat × String) (rand : Nat → Nat)
    (s c : Nat) (ws : List Nat)
    (h : fetchHtml resp rand = .fatal s c ws) (hr : retryable s = true) :
    c = MAX_RETRIES ∧ ws.length = MAX_RETRIES
    ∧ ws.getLast? = some (min 60000 (2 ^ MAX_RETRIES * 1000)
        + jitter (rand (MAX_RETRIES - 1))) := by
  have hall := fetchLoop_fatal_retryable MAX_RETRIES 0 [] s c ws (by omega) (by decide) h hr
  exact ⟨hall.1, by simpa using hall.2.1, hall.2.2⟩

/-- Witness for C10: the constant-429 run ends fatal with status 429 and
its last recorded sleep is the full final backoff. -/
theorem fetchHtml_sleep_before_fatal_witness :
    retryable 429 = true
    ∧ (5 = MAX_RETRIES
      ∧ ([4500, 6500, 10500, 18500, 34500] : List Nat).length = MAX_RETRIES
      ∧ ([4500, 6500, 10500, 18500, 34500] : List Nat).getLast?
          = some (min 60000 (2 ^ MAX_RETRIES * 1000) + jitter (zeroRand (MAX_RETRIES - 1)))) :=
  ⟨by decide,
    fetchHtml_sleep_before_fatal always429Seq zeroRand 429 5
      [4500, 6500, 10500, 18500, 34500] (by decide) (by decide)⟩

/-- C5: every snapshot crawlAll produces carries exactly the
first-seen-wins dedup of the run's accumulator: merge keys are pairwise
distinct, and for every key the first record in accumulator order is kept
while later records with the same key are dropped, preserving first-seen
order (dedupeFirstSeen is that specification, written from the spec's
words). -/
theorem crawlAll_merge_keys_unique (fs : Nat → Option Doc) (cp0 : Nat) (snap : Snap)
    (h : (crawlAll fs cp0).snapshot = some snap) :
    snap.players = dedupeFirstSeen ((crawlAll fs cp0).acc)
    ∧ (snap.players.map mergeKey).Nodup := by
  have hp := crawlAll_players_eq_dedupe fs cp0 snap h
  constructor
  · rw [hp, dedupe_eq_firstSeen]
  · rw [hp, dedupe_eq_firstSeen]
    exact dedupeFirstSeen_keys_nodup _ _ le_rfl

/-- Witness for C5: a run over the empty single-page source returns the
snapshot with no players, which is its own (trivially key-distinct)
first-seen dedup. -/
theorem crawlAll_merge_keys_unique_witness :
    (crawlAll emptySeq 0).snapshot = some ⟨[], 1⟩
    ∧ (([] : List Record) = dedupeFirstSeen ((crawlAll emptySeq 0).acc)
      ∧ ((([] : List Record).map mergeKey).Nodup)) :=
  ⟨by decide, crawlAll_merge_keys_unique emptySeq 0 ⟨[], 1⟩ (by decide)⟩

/-- The debug cap is configured off (MAX_PAGES_DEBUG = 0), so the limit
is always the detected last page. -/
theorem debugLimit_eq (x : Nat) :
    (if MAX_PAGES_DEBUG > 0 then min x MAX_PAGES_DEBUG else x) = x :=
  if_neg (by decide)

/-- C2 amended: on a clean run the fetch trace is the contiguous,
strictly increasing range of pages starting at page 1 — every page is
processed in strictly increasing order, none is fetched twice and none is
skipped. On a resumed run the trace is page 1 (the probe), then the
checkpointed page (the resume step), then the walking loop's contiguous
strictly increasing range starting again AT the checkpointed page: the
checkpointed page is fetched exactly twice, not once, and when the
loop's first fetch succeeds its records are extracted and appended a
second time right after the resume step's extraction of the same page. -/
theorem crawlAll_walk_order (fs : Nat → Option Doc) (cp0 : Nat) (d0 : Doc)
    (h0 : fs 0 = some d0) :
    (cp0 = 0 → ∃ m, 1 ≤ m ∧ m ≤ (detectLastPage d0).toNat ∧
        (crawlAll fs cp0).trace = List.range' 1 m ∧
        List.Pairwise (· < ·) (crawlAll fs cp0).trace ∧
        (crawlAll fs cp0).trace.Nodup)
    ∧ (∀ d1, fs 1 = some d1 → 2 ≤ cp0 → cp0 ≤ (detectLastPage d0).toNat →
        (∃ m, 1 ≤ m ∧ m ≤ (detectLastPage d0).toNat + 1 - cp0 ∧
          (crawlAll fs cp0).trace = 1 :: cp0 :: List.range' cp0 m ∧
          List.Pairwise (· < ·) (List.range' cp0 m))
        ∧ List.count cp0 (crawlAll fs cp0).trace = 2
        ∧ (∀ d2, fs 2 = some d2 →
            ∃ rest, (crawlAll fs cp0).acc = parsePage d1 ++ (parsePage d2 ++ rest))) := by
  have hL : 1 ≤ (detectLastPage d0).toNat := one_le_detectLastPage_toNat d0
  constructor
  · intro hcp0
    subst hcp0
    rw [crawlAll, h0]
    dsimp only
    rw [if_pos (by norm_num), debugLimit_eq]
    obtain ⟨m, hm, htr, hm1⟩ := walkPages_trace_shape fs
      ((detectLastPage d0).toNat + 1 - 2) 2 1 (parsePage d0) 1
    simp only [mkRun]
    rw [htr, List.singleton_append]
    refine ⟨m + 1, by omega, by omega, (List.range'_succ 1 m 1).symm, ?_, ?_⟩
    · rw [show (1 :: List.range' 2 m) = List.range' 1 (m + 1) from
        (List.range'_succ 1 m 1).symm]
      exact List.pairwise_lt_range' 1 (m + 1)
    · rw [List.nodup_cons]
      constructor
      · intro hmem
        rw [List.mem_range'_1] at hmem
        omega
      · exact List.nodup_range' 2 m
  · intro d1 h1 hcp2 hcpL
    rw [crawlAll, h0]
    dsimp only
    rw [show (if cp0 = 0 then 1 else cp0) = cp0 from if_neg (by omega)]
    rw [if_neg (show ¬ (cp0 = 1) by omega), debugLimit_eq, h1]
    refine ⟨?_, ?_, ?_⟩
    · obtain ⟨m, hm, htr, hm1⟩ := walkPages_trace_shape fs
        ((detectLastPage d0).toNat + 1 - cp0) cp0 2 (parsePage d1) cp0
      simp only [mkRun]
      rw [htr]
      refine ⟨m, hm1 (by omega), hm, by simp, List.pairwise_lt_range' cp0 m⟩
    · obtain ⟨m, hm, htr, hm1⟩ := walkPages_trace_shape fs
        ((detectLastPage d0).toNat + 1 - cp0) cp0 2 (parsePage d1) cp0
      simp only [mkRun]
      rw [htr]
      have hm1' : 1 ≤ m := hm1 (by omega)
      obtain ⟨m', rfl⟩ : ∃ m', m = m' + 1 := ⟨m - 1, by omega⟩
      rw [List.range'_succ]
      have hnot : ¬ (cp0 ∈ List.range' (cp0 + 1) m') := by
        intro hmem
        rw [List.mem_range'_1] at hmem
        omega
      simp only [List.cons_append, List.nil_append, List.count_cons,
        List.count_eq_zero.mpr hnot, beq_iff_eq]
      have : ¬ ((1 : Nat) = cp0) := by omega
      simp [this]
    · intro d2 h2
      simp only [mkRun]
      obtain ⟨n', hn⟩ : ∃ n', (detectLastPage d0).toNat + 1 - cp0 = n' + 1 :=
        ⟨(detectLastPage d0).toNat - cp0, by omega⟩
      rw [hn, List.range'_succ]
      simp only [walkPages, h2]
      obtain ⟨rest, hrest⟩ := walkPages_acc_extends fs
        (List.range' (cp0 + 1) n') 3 (parsePage d1 ++ parsePage d2) cp0
      exact ⟨rest, by rw [hrest, List.append_assoc]⟩

/-- Witness for C2 amended: on the resumed fixture run (checkpoint 2,
three pages) the trace is 1 :: 2 :: [2, 3], page 2 is counted twice, and
the accumulator holds page 2's records twice in front. -/
theorem crawlAll_walk_order_witness :
    (resumeSeq 0 = some page1Doc ∧ resumeSeq 1 = some page2Doc
      ∧ 2 ≤ 2 ∧ 2 ≤ (detectLastPage page1Doc).toNat)
    ∧ ((∃ m, 1 ≤ m ∧ m ≤ (detectLastPage page1Doc).toNat + 1 - 2
        ∧ (crawlAll resumeSeq 2).trace = 1 :: 2 :: List.range' 2 m
        ∧ List.Pairwise (· < ·) (List.range' 2 m))
      ∧ List.count 2 (crawlAll resumeSeq 2).trace = 2
      ∧ (∀ d2, resumeSeq 2 = some d2 →
          ∃ rest, (crawlAll resumeSeq 2).acc = parsePage page2Doc ++ (parsePage d2 ++ rest))) :=
  ⟨⟨rfl, rfl, le_refl 2, by decide⟩,
   (crawlAll_walk_order resumeSeq 2 page1Doc rfl).2 page2Doc rfl (le_refl 2) (by decide)⟩

/-- Checkpoint behavior of one walk followed by the end-of-run reset:
under the stated side conditions (which hold for any clean run and for
resumed runs whose starting checkpoint is below the limit), an errored
walk leaves a nonzero checkpoint strictly below the limit (so the reset
does not fire), and an error-free walk always triggers the reset to 0. -/
theorem mkRun_walk_reset (fs : Nat → Option Doc) (L s idx cp : Nat)
    (acc : List Record) (pre : List Nat)
    (h1 : 1 ≤ cp)
    (h2 : L + 1 - s = 0 → L ≤ cp)
    (h3 : 1 ≤ L + 1 - s → cp < L)
    (h4 : 1 ≤ s) :
    ((mkRun L (walkPages fs (List.range' s (L + 1 - s)) idx acc cp) pre).errLine = true →
      (mkRun L (walkPages fs (List.range' s (L + 1 - s)) idx acc cp) pre).cpFinal ≠ 0
      ∧ (mkRun L (walkPages fs (List.range' s (L + 1 - s)) idx acc cp) pre).cpFinal < L)
    ∧ ((mkRun L (walkPages fs (List.range' s (L + 1 - s)) idx acc cp) pre).errLine = false →
      (mkRun L (walkPages fs (List.range' s (L + 1 - s)) idx acc cp) pre).cpFinal = 0) := by
  simp only [mkRun]
  constructor
  · intro herr
    obtain ⟨hn, hcp⟩ := walkPages_cp_err fs (L + 1 - s) s idx acc cp herr
    have hlt : (walkPages fs (List.range' s (L + 1 - s)) idx acc cp).cp < L := by
      rcases hcp with h | ⟨ha, hb⟩
      · rw [h]; exact h3 hn
      · omega
    have hge : 1 ≤ (walkPages fs (List.range' s (L + 1 - s)) idx acc cp).cp := by
      rcases hcp with h | ⟨ha, hb⟩
      · rw [h]; exact h1
      · omega
    rw [if_neg (by omega)]
    exact ⟨by omega, hlt⟩
  · intro herr
    rcases walkPages_cp_ok fs (L + 1 - s) s idx acc cp herr with ⟨hn, hw⟩ | ⟨hn, hw⟩
    · have hcpv : (walkPages fs (List.range' s (L + 1 - s)) idx acc cp).cp = cp := by
        rw [hw]
      have := h2 hn
      rw [if_pos (by omega)]
    · rw [if_pos (by omega)]

/-- Abort behavior of one walk followed by mkRun: when the loop errors,
the run's fetch trace ends exactly at the failing page — the trace is the
pre-loop fetches followed by the contiguous block up to the failing page,
whose fetch call (the last one recorded, call number trace.length - 1)
returned the failure; every page in the trace is at most the failing
page, which itself is at most the limit, so no further page was ever
requested. -/
theorem mkRun_walk_abort (fs : Nat → Option Doc) (L s idx cp : Nat)
    (acc : List Record) (pre : List Nat)
    (hpre : ∀ q ∈ pre, q ≤ s) (hs1 : 1 ≤ s)
    (hidx : idx = pre.length) :
    (mkRun L (walkPages fs (List.range' s (L + 1 - s)) idx acc cp) pre).errLine = true →
    ∃ f, (mkRun L (walkPages fs (List.range' s (L + 1 - s)) idx acc cp) pre).trace.getLast?
        = some f
      ∧ (∀ q ∈ (mkRun L (walkPages fs (List.range' s (L + 1 - s)) idx acc cp) pre).trace,
          q ≤ f)
      ∧ fs ((mkRun L (walkPages fs (List.range' s (L + 1 - s)) idx acc cp) pre).trace.length
          - 1) = none
      ∧ f ≤ L := by
  simp only [mkRun]
  intro herr
  obtain ⟨m, hm1, hmn, htr, hfail⟩ :=
    walkPages_err_trace fs (L + 1 - s) s idx acc cp herr
  refine ⟨s + m - 1, ?_, ?_, ?_, by omega⟩
  · rw [htr, List.getLast?_append, List.getLast?_range', if_neg (by omega)]
    rfl
  · intro q hq
    rw [htr, List.mem_append] at hq
    rcases hq with hq | hq
    · have := hpre q hq
      omega
    · rw [List.mem_range'_1] at hq
      omega
  · rw [htr, List.length_append, List.length_range']
    rw [show pre.length + m - 1 = idx + m - 1 by omega]
    exact hfail

/-- C7 amended: provided the run is clean or resumes from a checkpoint
below the limit, a fetch failure inside the walking loop still returns a
snapshot (with the error progress line), aborts at once — the trace ends
at the failing page's fetch (the last call made, which is the one that
failed) and no page beyond it is requested — leaves a nonzero checkpoint
strictly below the limit intact for the next resume, and the checkpoint
is reset to 0 exactly when the loop finishes without error. (The
counterexample shows the unqualified claim fails when the resume point
already sits at the limit: the end-of-run reset tests the persisted
checkpoint against the limit, not whether the loop succeeded.) -/
theorem crawlAll_interruption_amended (fs : Nat → Option Doc) (cp0 : Nat) (d0 : Doc)
    (h0 : fs 0 = some d0)
    (hcp : cp0 = 0 ∨ cp0 < (detectLastPage d0).toNat) :
    ((crawlAll fs cp0).errLine = true →
      ((crawlAll fs cp0).snapshot.isSome = true
        ∧ (crawlAll fs cp0).cpFinal ≠ 0
        ∧ (crawlAll fs cp0).cpFinal < (detectLastPage d0).toNat))
    ∧ ((crawlAll fs cp0).snapshot.isSome = true →
      ((crawlAll fs cp0).errLine = false ↔ (crawlAll fs cp0).cpFinal = 0))
    ∧ ((crawlAll fs cp0).errLine = true →
      ∃ f, (crawlAll fs cp0).trace.getLast? = some f
        ∧ (∀ q ∈ (crawlAll fs cp0).trace, q ≤ f)
        ∧ fs ((crawlAll fs cp0).trace.length - 1) = none
        ∧ f ≤ (detectLastPage d0).toNat) := by
  have hL : 1 ≤ (detectLastPage d0).toNat := one_le_detectLastPage_toNat d0
  rw [crawlAll, h0]
  dsimp only
  by_cases hsp : (if cp0 = 0 then 1 else cp0) = 1
  · rw [if_pos hsp, debugLimit_eq]
    have hmk := mkRun_walk_reset fs ((detectLastPage d0).toNat) 2 1 1
      (parsePage d0) [1] (le_refl 1) (by omega) (by omega) (by omega)
    refine ⟨fun herr => ⟨rfl, (hmk.1 herr).1, (hmk.1 herr).2⟩, fun _ => ?_, ?_⟩
    · constructor
      · exact hmk.2
      · intro hcp0
        by_cases he : (mkRun ((detectLastPage d0).toNat)
            (walkPages fs (List.range' 2 ((detectLastPage d0).toNat + 1 - 2)) 1
              (parsePage d0) 1) [1]).errLine = true
        · exact absurd hcp0 (hmk.1 he).1
        · exact Bool.not_eq_true _ ▸ he
    · exact mkRun_walk_abort fs ((detectLastPage d0).toNat) 2 1 1
        (parsePage d0) [1] (by intro q hq; simp at hq; omega) (by omega) rfl
  · have hcpL : cp0 < (detectLastPage d0).toNat := by
      rcases hcp with h | h
      · exact absurd (if_pos h) hsp
      · exact h
    have hcp2 : 2 ≤ cp0 := by
      by_cases hz : cp0 = 0
      · exact absurd (if_pos hz) hsp
      · by_cases ho : cp0 = 1
        · exact absurd (by rw [if_neg (show ¬ (cp0 = 0) by omega)]; exact ho) hsp
        · omega
    rw [show (if cp0 = 0 then 1 else cp0) = cp0 from if_neg (by omega)]
    rw [if_neg (show ¬ (cp0 = 1) by omega), debugLimit_eq]
    have hopt : (∃ d, fs 1 = some d) ∨ fs 1 = none := by
      cases fs 1 with
      | none => exact Or.inr rfl
      | some d => exact Or.inl ⟨d, rfl⟩
    rcases hopt with ⟨d1, hf1⟩ | hf1
    · rw [hf1]
      have hmk := mkRun_walk_reset fs ((detectLastPage d0).toNat) cp0 2 cp0
        (parsePage d1) [1, cp0] (by omega) (by omega) (fun _ => hcpL) (by omega)
      refine ⟨fun herr => ⟨rfl, (hmk.1 herr).1, (hmk.1 herr).2⟩, fun _ => ?_, ?_⟩
      · constructor
        · exact hmk.2
        · intro hcp0
          by_cases he : (mkRun ((detectLastPage d0).toNat)
              (walkPages fs (List.range' cp0 ((detectLastPage d0).toNat + 1 - cp0)) 2
                (parsePage d1) cp0) [1, cp0]).errLine = true
          · exact absurd hcp0 (hmk.1 he).1
          · exact Bool.not_eq_true _ ▸ he
      · exact mkRun_walk_abort fs ((detectLastPage d0).toNat) cp0 2 cp0
          (parsePage d1) [1, cp0] (by intro q hq; simp at hq; omega) (by omega) rfl
    · rw [hf1]
      exact ⟨fun herr => by simp at herr, fun hs => by simp at hs,
        fun herr => by simp at herr⟩

/-- Witness for C7 amended: the clean three-page fixture run completes
without error and its checkpoint is reset to 0. -/
theorem crawlAll_interruption_amended_witness :
    (cleanSeq 0 = some page1Doc ∧ ((0 : Nat) = 0 ∨ (0 : Nat) < (detectLastPage page1Doc).toNat))
    ∧ ((crawlAll cleanSeq 0).snapshot.isSome = true →
      ((crawlAll cleanSeq 0).errLine = false ↔ (crawlAll cleanSeq 0).cpFinal = 0)) :=
  ⟨⟨rfl, Or.inl rfl⟩,
   (crawlAll_interruption_amended cleanSeq 0 page1Doc rfl (Or.inl rfl)).2.1⟩

end PesDB
